import Mathlib

/-!
Verification of src/js/DynamicProperty.js (the constant-value property
of the cesium-drawing repository).

The embedding models a JavaScript value as seen by DynamicProperty:
either undefined, or an object with reference identity, structural
content, and optional clone / equals member functions.  A value that
exposes equals compares by structural content; a value that exposes
clone produces an object with the same content and capabilities at a
caller-visible reference (the result argument, or a freshly allocated
one).  Fallible operations (a method call on a value that lacks the
method, i.e. a JavaScript TypeError) return Option, with none for the
failure.
-/

/-- A JavaScript object as seen by DynamicProperty: reference identity
ref, structural content, and whether it exposes clone and equals
member functions. -/
structure Obj where
  ref : Nat
  content : Nat
  hasClone : Bool
  hasEquals : Bool
deriving DecidableEq

/-- A JavaScript value: none is undefined, some o an object. -/
abbrev Val := Option Obj

/-- Strict reference equality (the JavaScript triple-equals on values
handled by this component): undefined equals undefined, objects compare
by reference. -/
def valRefEq : Val → Val → Bool
  | none, none => true
  | some a, some b => a.ref == b.ref
  | _, _ => false

/-- isDefined and typeof value.clone being a function
(Cesium.defined(value) conjoined with the clone capability). -/
def valHasClone : Val → Bool
  | some o => o.hasClone
  | none => false

/-- isDefined and typeof value.equals being a function. -/
def valHasEquals : Val → Bool
  | some o => o.hasEquals
  | none => false

/-- The result of a.equals(b) for an object a that exposes equals:
structural comparison, false against undefined. -/
def objEquals (a : Obj) (b : Val) : Bool :=
  match b with
  | some o => a.content == o.content
  | none => false

/-- The result of v.equals(b); only consulted by the code after it has
checked that v exposes equals. -/
def valEqualsCall : Val → Val → Bool
  | some o, b => objEquals o b
  | none, _ => false

/-- The result of o.clone(result): when a result object is supplied the
content of o is written into it and the result object itself is
returned (same reference as result); otherwise a new instance is
allocated at the fresh reference. Content and capabilities follow o. -/
def cloneObj (o : Obj) (result : Val) (fresh : Nat) : Obj :=
  match result with
  | some r => { o with ref := r.ref }
  | none => { o with ref := fresh }

/-- v.clone(result) lifted to values; only consulted by the code after
it has checked that v exposes clone. -/
def cloneVal (v : Val) (result : Val) (fresh : Nat) : Val :=
  match v with
  | some o => some (cloneObj o result fresh)
  | none => none

/-- The observable state of one DynamicProperty instance: its own
reference identity, the stored value, the two cached capability flags
and the constant flag. -/
structure PropState where
  ref : Nat
  value : Val
  hasClone : Bool
  hasEquals : Bool
  constant : Bool
deriving DecidableEq

/-- DynamicProperty.prototype.setValue.  fresh models the heap address
allocated when value.clone() creates a new instance.  Returns the
updated property state together with the list of arguments passed to
definitionChanged.raiseEvent; each raised argument is the property
itself, observed after the update, so the list is empty when no event
fires and a singleton when the event fires once. -/
def setValue (p : PropState) (v : Val) (fresh : Nat) : PropState × List PropState :=
  if valRefEq p.value v then (p, [])
  else
    let hasClone := valHasClone v
    let hasEquals := valHasEquals v
    let p1 := { p with hasClone := hasClone, hasEquals := hasEquals }
    let changed := !hasEquals || !valEqualsCall v p.value
    if changed then
      let p2 := { p1 with value := if !hasClone then v else cloneVal v none fresh }
      (p2, [p2])
    else (p1, [])

/-- The DynamicProperty constructor: fields start as undefined value,
cleared flags and a false constant flag, then setValue(value) runs. -/
def construct (r : Nat) (v : Val) (fresh : Nat) : PropState × List PropState :=
  setValue { ref := r, value := none, hasClone := false, hasEquals := false, constant := false } v fresh

/-- DynamicProperty.prototype.getValue.  time is unused by the code but
kept as a parameter; fresh models the address allocated when clone is
called without a result.  none models the TypeError raised when
this.hasClone is set but the stored value is undefined or lacks a
clone function. -/
def getValue (p : PropState) (time : Nat) (result : Val) (fresh : Nat) : Option Val :=
  if p.hasClone then
    match p.value with
    | some o => if o.hasClone then some (some (cloneObj o result fresh)) else none
    | none => none
  else
    some p.value

/-- The isConstant setter: no-op when the new boolean equals the
current flag, otherwise update and raise the event once with the
property as argument. -/
def setIsConstant (p : PropState) (b : Bool) : PropState × List PropState :=
  if p.constant != b then
    let p1 := { p with constant := b }
    (p1, [p1])
  else (p, [])

/-- The isConstant getter. -/
def isConstant (p : PropState) : Bool :=
  p.constant

/-- DynamicProperty.prototype.equals.  other is none when the argument
is not a DynamicProperty instance (instanceof fails); instance
identity is reference identity of the properties.  none models the
TypeError raised when this.hasEquals is set but the stored value is
undefined or lacks an equals function. -/
def propEquals (p : PropState) (other : Option PropState) : Option Bool :=
  match other with
  | none => some false
  | some q =>
    if p.ref == q.ref then some true
    else if !p.hasEquals then some (valRefEq p.value q.value)
    else
      match p.value with
      | some o => if o.hasEquals then some (objEquals o q.value) else none
      | none => none

/-- States reachable through construction, setValue and the isConstant
setter. -/
inductive Reachable : PropState → Prop where
  | ctor : ∀ r v fresh, Reachable (construct r v fresh).1
  | setv : ∀ p v fresh, Reachable p → Reachable (setValue p v fresh).1
  | setc : ∀ p b, Reachable p → Reachable (setIsConstant p b).1

/-- The state of a property the moment the constructor body starts,
before its setValue call runs. -/
def initState (r : Nat) : PropState :=
  { ref := r, value := none, hasClone := false, hasEquals := false, constant := false }

/-- A value exposing equals but not clone. -/
def aNoClone : Obj := { ref := 1, content := 5, hasClone := false, hasEquals := true }

/-- A value exposing both clone and equals, structurally equal to
aNoClone but a different object. -/
def bClone : Obj := { ref := 2, content := 5, hasClone := true, hasEquals := true }

/-- The property freshly constructed with aNoClone: it stores aNoClone
by reference and caches flags hasClone false, hasEquals true. -/
def sFirst : PropState := (construct 0 (some aNoClone) 10).1

/-- sFirst after setValue with bClone: bClone compares equal to the
stored aNoClone, so the stored value stays aNoClone while the flags
are recomputed from bClone, leaving hasClone true although the stored
value exposes no clone function. -/
def sBad : PropState := (setValue sFirst (some bClone) 11).1

/-- A value with neither capability. -/
def oldNoEq : Obj := { ref := 1, content := 5, hasClone := false, hasEquals := false }

/-- A value exposing equals only, structurally equal to oldNoEq. -/
def vWithEq : Obj := { ref := 2, content := 5, hasClone := false, hasEquals := true }

/-- A reachable property whose hasEquals flag is set while its stored
value exposes no equals function: constructed with oldNoEq, then
setValue with the structurally equal vWithEq keeps oldNoEq stored but
sets the flag. -/
def pMismatch : PropState := (setValue (construct 0 (some oldNoEq) 10).1 (some vWithEq) 11).1

/-- A second property holding the same stored object as pMismatch. -/
def qOther : PropState :=
  { ref := 9, value := some oldNoEq, hasClone := false, hasEquals := false, constant := false }

/-- A value exposing both capabilities. -/
def o0 : Obj := { ref := 3, content := 7, hasClone := true, hasEquals := true }

/-- A coherent property state storing o0 with matching flags. -/
def pClone : PropState :=
  { ref := 0, value := some o0, hasClone := true, hasEquals := true, constant := false }

/-- A property state storing aNoClone with matching flags. -/
def pA : PropState :=
  { ref := 0, value := some aNoClone, hasClone := false, hasEquals := true, constant := false }

/-- A clone-and-equals capable value used as a generic new value. -/
def a0 : Obj := { ref := 1, content := 5, hasClone := true, hasEquals := true }

/-- A clone-and-equals capable value. -/
def a7 : Obj := { ref := 1, content := 3, hasClone := true, hasEquals := true }

/-- An equals capable value structurally equal to a7. -/
def b7 : Obj := { ref := 2, content := 3, hasClone := false, hasEquals := true }

/-- setValue returns without side effects when the new value is
reference identical to the stored one. -/
theorem setValue_noop_of_refEq (p : PropState) (v : Val) (fresh : Nat)
    (h : valRefEq p.value v = true) : setValue p v fresh = (p, []) := by
  unfold setValue
  rw [h]
  rfl

/-- Unfolding of setValue past the reference identity guard. -/
theorem setValue_of_not_refEq (p : PropState) (v : Val) (fresh : Nat)
    (h : valRefEq p.value v = false) :
    setValue p v fresh =
      (if !valHasEquals v || !valEqualsCall v p.value then
        ({ p with
             hasClone := valHasClone v
             hasEquals := valHasEquals v
             value := if !valHasClone v then v else cloneVal v none fresh },
         [{ p with
              hasClone := valHasClone v
              hasEquals := valHasEquals v
              value := if !valHasClone v then v else cloneVal v none fresh }])
       else ({ p with hasClone := valHasClone v, hasEquals := valHasEquals v }, [])) := by
  unfold setValue
  rw [h]
  rfl

/-- setValue never touches the constant flag. -/
theorem setValue_constant (p : PropState) (v : Val) (fresh : Nat) :
    (setValue p v fresh).1.constant = p.constant := by
  cases hre : valRefEq p.value v with
  | true => rw [setValue_noop_of_refEq p v fresh hre]
  | false =>
    rw [setValue_of_not_refEq p v fresh hre]
    split
    · rfl
    · rfl

/-- The isConstant setter touches no field other than the constant
flag. -/
theorem setIsConstant_fields (p : PropState) (b : Bool) :
    (setIsConstant p b).1.value = p.value
    ∧ (setIsConstant p b).1.hasClone = p.hasClone
    ∧ (setIsConstant p b).1.hasEquals = p.hasEquals
    ∧ (setIsConstant p b).1.ref = p.ref := by
  unfold setIsConstant
  split
  · exact ⟨rfl, rfl, rfl, rfl⟩
  · exact ⟨rfl, rfl, rfl, rfl⟩

/-- One setValue call preserves the invariant that a set capability
flag implies a defined stored value. -/
theorem setValue_keeps_defined (p : PropState) (v : Val) (fresh : Nat)
    (ih : (p.hasClone = true → p.value.isSome = true)
        ∧ (p.hasEquals = true → p.value.isSome = true)) :
    ((setValue p v fresh).1.hasClone = true → (setValue p v fresh).1.value.isSome = true)
    ∧ ((setValue p v fresh).1.hasEquals = true → (setValue p v fresh).1.value.isSome = true) := by
  cases hre : valRefEq p.value v with
  | true => rw [setValue_noop_of_refEq p v fresh hre]; exact ih
  | false =>
    rw [setValue_of_not_refEq p v fresh hre]
    cases v with
    | none => simp [valHasClone, valHasEquals, valEqualsCall]
    | some o =>
      cases hch : (!valHasEquals (some o) || !valEqualsCall (some o) p.value) with
      | true => simp [hch, cloneVal]; split <;> simp
      | false =>
        have hec : valEqualsCall (some o) p.value = true := by
          cases hq : valEqualsCall (some o) p.value with
          | true => rfl
          | false => rw [hq] at hch; simp at hch
        have hpv : p.value.isSome = true := by
          cases hpv : p.value with
          | none => rw [hpv] at hec; simp [valEqualsCall, objEquals] at hec
          | some w => rfl
        simp [hch, hpv]

/-- C1: for every setValue call whose argument is not reference
identical to the stored value, changed is true exactly when the new
value lacks an equals capability or its equals method rejects the old
stored value; the definitionChanged event is raised exactly once, with
this property (its updated state, same instance reference) as the sole
argument, exactly when changed holds, and a changed call stores a
clone of the new value when it exposes clone and the raw reference
otherwise. -/
theorem C1_setValue_change_semantics (p : PropState) (v : Val) (fresh : Nat)
    (h : valRefEq p.value v = false) :
    (setValue p v fresh).2
        = (if !valHasEquals v || !valEqualsCall v p.value then [(setValue p v fresh).1] else [])
    ∧ (setValue p v fresh).1.ref = p.ref
    ∧ ((!valHasEquals v || !valEqualsCall v p.value) = true →
        (setValue p v fresh).1.value = (if valHasClone v then cloneVal v none fresh else v)) := by
  rw [setValue_of_not_refEq p v fresh h]
  cases hch : (!valHasEquals v || !valEqualsCall v p.value) with
  | true =>
    refine ⟨by simp [hch], by simp [hch], fun _ => ?_⟩
    cases hcl : valHasClone v <;> simp [hch, hcl]
  | false => exact ⟨by simp [hch], by simp [hch], fun hc => nomatch hc⟩

/-- Witness for C1 at a concrete input. -/
theorem C1_setValue_change_semantics_witness :
    valRefEq (initState 0).value (some a0) = false
    ∧ ((setValue (initState 0) (some a0) 7).2
        = (if !valHasEquals (some a0) || !valEqualsCall (some a0) (initState 0).value then [(setValue (initState 0) (some a0) 7).1] else [])
      ∧ (setValue (initState 0) (some a0) 7).1.ref = (initState 0).ref
      ∧ ((!valHasEquals (some a0) || !valEqualsCall (some a0) (initState 0).value) = true →
          (setValue (initState 0) (some a0) 7).1.value = (if valHasClone (some a0) then cloneVal (some a0) none 7 else (some a0)))) :=
  ⟨by decide, C1_setValue_change_semantics (initState 0) (some a0) 7 (by decide)⟩

/-- C5: setValue with the exact stored reference is a no-op, leaving
every field (value, both capability flags, the constant flag) intact
and firing no event. -/
theorem C5_setValue_same_ref_noop (p : PropState) (v : Val) (fresh : Nat)
    (h : valRefEq p.value v = true) :
    setValue p v fresh = (p, []) :=
  setValue_noop_of_refEq p v fresh h

/-- Witness for C5 at a concrete input. -/
theorem C5_setValue_same_ref_noop_witness :
    valRefEq pA.value (some aNoClone) = true ∧ setValue pA (some aNoClone) 7 = (pA, []) :=
  ⟨by decide, C5_setValue_same_ref_noop pA (some aNoClone) 7 (by decide)⟩

/-- C6: a setValue call whose argument differs in reference from the
stored value but compares equal through its equals method updates the
two capability flags from the argument, keeps the previously stored
value object, and fires no event. -/
theorem C6_setValue_equal_keeps_value (p : PropState) (v : Val) (fresh : Nat)
    (h1 : valRefEq p.value v = false)
    (h2 : valHasEquals v = true)
    (h3 : valEqualsCall v p.value = true) :
    setValue p v fresh = ({ p with hasClone := valHasClone v, hasEquals := valHasEquals v }, []) := by
  rw [setValue_of_not_refEq p v fresh h1]
  simp [h2, h3]

/-- Witness for C6 at a concrete input. -/
theorem C6_setValue_equal_keeps_value_witness :
    valRefEq pA.value (some bClone) = false
    ∧ valHasEquals (some bClone) = true
    ∧ valEqualsCall (some bClone) pA.value = true
    ∧ setValue pA (some bClone) 7
        = ({ pA with hasClone := valHasClone (some bClone), hasEquals := valHasEquals (some bClone) }, []) :=
  ⟨by decide, by decide, by decide,
    C6_setValue_equal_keeps_value pA (some bClone) 7 (by decide) (by decide) (by decide)⟩

/-- C4 counterexample: the state sBad is reachable (construct with
aNoClone, then setValue with the structurally equal bClone) and has
its supportsClone flag set although the currently stored value exposes
no clone function, refuting the claimed invariant that the flags always
match the capabilities of the currently stored value. -/
theorem C4_flags_lag_counterexample :
    Reachable sBad ∧ sBad.hasClone = true ∧ valHasClone sBad.value = false := by
  refine ⟨?_, by decide, by decide⟩
  exact Reachable.setv _ _ _ (Reachable.ctor 0 (some aNoClone) 10)

/-- C4 amended: after every setValue call that passes the reference
identity guard (including the one made by the constructor), the
supportsClone and supportsEquals flags equal the capabilities of the
value argument of that call; when the call keeps the old stored value
(changed false) these need not match the stored value itself. -/
theorem C4_flags_follow_argument (p : PropState) (v : Val) (fresh r : Nat)
    (h : valRefEq p.value v = false) :
    (setValue p v fresh).1.hasClone = valHasClone v
    ∧ (setValue p v fresh).1.hasEquals = valHasEquals v
    ∧ (construct r v fresh).1.hasClone = valHasClone v
    ∧ (construct r v fresh).1.hasEquals = valHasEquals v := by
  have hset : ∀ q : PropState, valRefEq q.value v = false →
      (setValue q v fresh).1.hasClone = valHasClone v
      ∧ (setValue q v fresh).1.hasEquals = valHasEquals v := by
    intro q hq
    rw [setValue_of_not_refEq q v fresh hq]
    split
    · exact ⟨rfl, rfl⟩
    · exact ⟨rfl, rfl⟩
  have hcon : (construct r v fresh).1.hasClone = valHasClone v
      ∧ (construct r v fresh).1.hasEquals = valHasEquals v := by
    cases v with
    | none =>
      have : construct r none fresh = (initState r, []) :=
        setValue_noop_of_refEq (initState r) none fresh rfl
      rw [this]
      exact ⟨rfl, rfl⟩
    | some o => exact hset (initState r) rfl
  exact ⟨(hset p h).1, (hset p h).2, hcon.1, hcon.2⟩

/-- Witness for the amended C4 at a concrete input. -/
theorem C4_flags_follow_argument_witness :
    valRefEq (initState 0).value (some a0) = false
    ∧ ((setValue (initState 0) (some a0) 7).1.hasClone = valHasClone (some a0)
      ∧ (setValue (initState 0) (some a0) 7).1.hasEquals = valHasEquals (some a0)
      ∧ (construct 4 (some a0) 7).1.hasClone = valHasClone (some a0)
      ∧ (construct 4 (some a0) 7).1.hasEquals = valHasEquals (some a0)) :=
  ⟨by decide, C4_flags_follow_argument (initState 0) (some a0) 7 4 (by decide)⟩

/-- C2 counterexample: on a property storing the clone-capable o0,
calling getValue with the stored object itself supplied as the result
argument returns exactly the internally stored reference (clone writes
into its result argument and returns it), refuting the claim that the
returned object is never the internally stored reference. -/
theorem C2_getValue_aliasing_counterexample :
    pClone.hasClone = true ∧ valHasClone pClone.value = true
    ∧ pClone.value = some o0
    ∧ getValue pClone 0 (some o0) 5 = some (some o0) := by decide

/-- C2 amended: when the supportsClone flag matches the actual clone
capability of the stored value, getValue ignores its time argument;
with the flag unset it returns the stored reference itself; with the
flag set it returns a clone of the stored value (content and
capabilities preserved) written into the result argument when one is
supplied and allocated at the fresh reference otherwise, so the
returned object differs from the internally stored reference provided
the supplied result is not itself the stored object and the fresh
reference is genuinely new. -/
theorem C2_getValue_clone_semantics (p : PropState) (t1 t2 : Nat) (r : Val) (fresh : Nat)
    (hm : p.hasClone = valHasClone p.value) :
    getValue p t1 r fresh = getValue p t2 r fresh
    ∧ (p.hasClone = false → getValue p t1 r fresh = some p.value)
    ∧ (∀ o, p.value = some o → p.hasClone = true →
        getValue p t1 r fresh = some (some (cloneObj o r fresh))
        ∧ (cloneObj o r fresh).content = o.content
        ∧ (cloneObj o r fresh).hasClone = o.hasClone
        ∧ (cloneObj o r fresh).hasEquals = o.hasEquals
        ∧ (∀ ro, r = some ro → (cloneObj o r fresh).ref = ro.ref)
        ∧ (r = none → (cloneObj o r fresh).ref = fresh)) := by
  refine ⟨rfl, ?_, ?_⟩
  · intro hcl
    simp [getValue, hcl]
  · intro o hv hcl
    have ho : o.hasClone = true := by
      rw [hcl, hv] at hm
      simpa [valHasClone] using hm.symm
    refine ⟨by simp [getValue, hcl, hv, ho], by cases r <;> rfl, by cases r <;> rfl,
      by cases r <;> rfl, ?_, ?_⟩
    · intro ro hr
      rw [hr]
      rfl
    · intro hr
      rw [hr]
      rfl

/-- Witness for the amended C2 at a concrete input. -/
theorem C2_getValue_clone_semantics_witness :
    pClone.hasClone = valHasClone pClone.value
    ∧ (getValue pClone 0 none 5 = getValue pClone 1 none 5
      ∧ (pClone.hasClone = false → getValue pClone 0 none 5 = some pClone.value)
      ∧ (∀ o, pClone.value = some o → pClone.hasClone = true →
          getValue pClone 0 none 5 = some (some (cloneObj o none 5))
          ∧ (cloneObj o none 5).content = o.content
          ∧ (cloneObj o none 5).hasClone = o.hasClone
          ∧ (cloneObj o none 5).hasEquals = o.hasEquals
          ∧ (∀ ro, (none : Val) = some ro → (cloneObj o none 5).ref = ro.ref)
          ∧ ((none : Val) = none → (cloneObj o none 5).ref = 5))) :=
  ⟨by decide, C2_getValue_clone_semantics pClone 0 1 none 5 (by decide)⟩

/-- C3 counterexample: pMismatch is reachable and its supportsEquals
flag is set although its stored value exposes no equals function; the
claim then predicts that equals against qOther (same stored reference,
different instance) returns a boolean (true by the reference branch),
but the code consults the flag, calls the missing equals method of
the stored value and fails (a TypeError, modeled as none). -/
theorem C3_equals_crash_counterexample :
    Reachable pMismatch
    ∧ (pMismatch.ref == qOther.ref) = false
    ∧ valHasEquals pMismatch.value = false
    ∧ valRefEq pMismatch.value qOther.value = true
    ∧ propEquals pMismatch (some qOther) = none := by
  refine ⟨?_, by decide, by decide, by decide, by decide⟩
  exact Reachable.setv _ _ _ (Reachable.ctor 0 (some oldNoEq) 10)

/-- C3 amended: provided the supportsEquals flag of the receiver
matches the actual equals capability of its stored value, equals
returns true exactly when the argument is the same instance, or is
also a property and either the flag of the receiver is unset and the
two stored values are the same reference, or the flag is set and the
stored value of the receiver compares equal to the stored value of the
argument; only the receiver side capability is consulted, never that
of the argument (its flags are irrelevant to the result), and a
non-property argument yields false.  Without the proviso the call can
fail instead of returning a boolean. -/
theorem C3_propEquals_semantics (p q : PropState)
    (hm : p.hasEquals = valHasEquals p.value) :
    propEquals p (some q)
      = some ((p.ref == q.ref)
          || (!p.hasEquals && valRefEq p.value q.value)
          || (p.hasEquals && valEqualsCall p.value q.value))
    ∧ propEquals p none = some false
    ∧ (∀ b c, propEquals p (some { q with hasClone := b, hasEquals := c })
        = propEquals p (some q)) := by
  refine ⟨?_, rfl, ?_⟩
  · cases hr : (p.ref == q.ref) with
    | true => simp [propEquals, hr]
    | false =>
      cases he : p.hasEquals with
      | false => simp [propEquals, hr, he]
      | true =>
        rw [he] at hm
        cases hv : p.value with
        | none => rw [hv] at hm; simp [valHasEquals] at hm
        | some o =>
          have ho : o.hasEquals = true := by
            rw [hv] at hm
            simpa [valHasEquals] using hm.symm
          simp [propEquals, hr, he, hv, ho, valEqualsCall]
  · intro b c
    unfold propEquals
    rfl

/-- Witness for the amended C3 at a concrete input. -/
theorem C3_propEquals_semantics_witness :
    pClone.hasEquals = valHasEquals pClone.value
    ∧ (propEquals pClone (some qOther)
        = some ((pClone.ref == qOther.ref)
            || (!pClone.hasEquals && valRefEq pClone.value qOther.value)
            || (pClone.hasEquals && valEqualsCall pClone.value qOther.value))
      ∧ propEquals pClone none = some false
      ∧ (∀ b c, propEquals pClone (some { qOther with hasClone := b, hasEquals := c })
          = propEquals pClone (some qOther))) :=
  ⟨by decide, C3_propEquals_semantics pClone qOther (by decide)⟩

/-- A setValue call that fires the event: the raised list is the
updated property alone and the stored value is the argument or its
clone. -/
theorem setValue_changed_parts (p : PropState) (v : Val) (fresh : Nat)
    (h : valRefEq p.value v = false)
    (hc : (!valHasEquals v || !valEqualsCall v p.value) = true) :
    (setValue p v fresh).2 = [(setValue p v fresh).1]
    ∧ (setValue p v fresh).1.value = (if !valHasClone v then v else cloneVal v none fresh) := by
  rw [setValue_of_not_refEq p v fresh h, hc]
  exact ⟨rfl, rfl⟩

/-- setValue with an equals-capable value that compares equal to the
stored one raises no event. -/
theorem setValue_events_nil_of_equal (p : PropState) (b : Obj) (f : Nat)
    (hb : b.hasEquals = true) (hbe : objEquals b p.value = true) :
    (setValue p (some b) f).2 = [] := by
  cases hre : valRefEq p.value (some b) with
  | true => rw [setValue_noop_of_refEq _ _ _ hre]
  | false =>
    rw [setValue_of_not_refEq _ _ _ hre]
    have hc : (!valHasEquals (some b) || !valEqualsCall (some b) p.value) = false := by
      simp [valHasEquals, valEqualsCall, hb, hbe]
    rw [hc]
    rfl

/-- C7: on a property constructed with no initial value, the sequence
setValue(a) then setValue(b), where a and b both expose equals and a
compares equal to b, fires the definitionChanged event exactly once in
total, on the first call only: construction fires nothing, the first
call fires once, the second call fires nothing. -/
theorem C7_double_setValue_single_event (r f0 f1 f2 : Nat) (a b : Obj)
    (ha : a.hasEquals = true) (hb : b.hasEquals = true)
    (hab : objEquals a (some b) = true) :
    (construct r none f0).2 = []
    ∧ (setValue (construct r none f0).1 (some a) f1).2
        = [(setValue (construct r none f0).1 (some a) f1).1]
    ∧ (setValue (setValue (construct r none f0).1 (some a) f1).1 (some b) f2).2 = [] := by
  have hcons : construct r none f0 = (initState r, []) := by
    unfold construct initState
    exact setValue_noop_of_refEq _ none f0 rfl
  have h0 : (construct r none f0).1 = initState r := by rw [hcons]
  have href1 : valRefEq ((construct r none f0).1).value (some a) = false := by
    rw [h0]
    rfl
  have hcond1 : (!valHasEquals (some a) || !valEqualsCall (some a) ((construct r none f0).1).value) = true := by
    rw [h0]
    simp [initState, valHasEquals, valEqualsCall, objEquals, ha]
  obtain ⟨he1, hv1⟩ := setValue_changed_parts _ (some a) f1 href1 hcond1
  refine ⟨by rw [hcons], he1, ?_⟩
  have hcnt : a.content = b.content := by simpa [objEquals] using hab
  have hbe : objEquals b ((setValue (construct r none f0).1 (some a) f1).1).value = true := by
    rw [hv1]
    cases hcl : valHasClone (some a) with
    | false => simp [objEquals, hcnt]
    | true => simp [cloneVal, cloneObj, objEquals, hcnt]
  exact setValue_events_nil_of_equal _ b f2 hb hbe

/-- Witness for C7 at a concrete input. -/
theorem C7_double_setValue_single_event_witness :
    a7.hasEquals = true ∧ b7.hasEquals = true ∧ objEquals a7 (some b7) = true
    ∧ ((construct 0 none 9).2 = []
      ∧ (setValue (construct 0 none 9).1 (some a7) 10).2
          = [(setValue (construct 0 none 9).1 (some a7) 10).1]
      ∧ (setValue (setValue (construct 0 none 9).1 (some a7) 10).1 (some b7) 11).2 = []) :=
  ⟨by decide, by decide, by decide,
    C7_double_setValue_single_event 0 9 10 11 a7 b7 (by decide) (by decide) (by decide)⟩

/-- C8: setting isConstant is a no-op when the new boolean equals the
current flag and otherwise updates the flag and raises the event
exactly once with this property (its updated state) as sole argument;
the getter returns the current flag, which is false right after
construction whatever the initial value. -/
theorem C8_isConstant_semantics (p : PropState) (b : Bool) (r : Nat) (v : Val) (fresh : Nat) :
    setIsConstant p b
      = (if p.constant == b then (p, [])
         else ({ p with constant := b }, [{ p with constant := b }]))
    ∧ isConstant p = p.constant
    ∧ isConstant (construct r v fresh).1 = false := by
  refine ⟨?_, rfl, ?_⟩
  · cases hcb : (p.constant == b) with
    | true => simp [setIsConstant, bne, hcb]
    | false => simp [setIsConstant, bne, hcb]
  · exact setValue_constant { ref := r, value := none, hasClone := false, hasEquals := false, constant := false } v fresh

/-- C9: a property constructed with an absent initial value stores
undefined, getValue returns undefined for any time, result and fresh
arguments, and equals against another property constructed with an
absent value returns true. -/
theorem C9_absent_initial_value (r1 r2 f1 f2 t fresh : Nat) (res : Val) :
    (construct r1 none f1).1.value = none
    ∧ getValue (construct r1 none f1).1 t res fresh = some none
    ∧ propEquals (construct r1 none f1).1 (some (construct r2 none f2).1) = some true := by
  have hc1 : construct r1 none f1 = (initState r1, []) := by
    unfold construct initState
    exact setValue_noop_of_refEq _ none f1 rfl
  have hc2 : construct r2 none f2 = (initState r2, []) := by
    unfold construct initState
    exact setValue_noop_of_refEq _ none f2 rfl
  rw [hc1, hc2]
  refine ⟨rfl, by simp [getValue, initState], ?_⟩
  show propEquals (initState r1) (some (initState r2)) = some true
  cases hr : (r1 == r2) with
  | true => simp [propEquals, initState, hr]
  | false => simp [propEquals, initState, hr, valRefEq]

/-- C10 counterexample: sBad is reachable, its supportsClone flag is
set, yet the stored value exposes no clone function, so the unguarded
clone call in getValue fails (modeled as none) even though the stored
value is defined; this refutes the claimed invariant that a set flag
implies a stored value exposing the corresponding function. -/
theorem C10_stale_capability_counterexample :
    Reachable sBad ∧ sBad.hasClone = true ∧ sBad.value.isSome = true
    ∧ valHasClone sBad.value = false
    ∧ getValue sBad 0 none 12 = none := by
  refine ⟨?_, by decide, by decide, by decide, by decide⟩
  exact Reachable.setv _ _ _ (Reachable.ctor 0 (some aNoClone) 10)

/-- C10 amended: in every reachable state, a set supportsClone or
supportsEquals flag implies that the stored value is defined, so the
unguarded member accesses in getValue and equals never dereference an
absent value; the defined stored value may however lack the clone or
equals function itself after a changed-false setValue recomputed the
flags from a value that was not stored. -/
theorem C10_flagged_value_defined (p : PropState) (h : Reachable p) :
    (p.hasClone = true → p.value.isSome = true)
    ∧ (p.hasEquals = true → p.value.isSome = true) := by
  induction h with
  | ctor r v fresh =>
    exact setValue_keeps_defined (initState r) v fresh
      ⟨fun hx => Bool.noConfusion hx, fun hx => Bool.noConfusion hx⟩
  | setv p v fresh _ ih => exact setValue_keeps_defined p v fresh ih
  | setc p b _ ih =>
    obtain ⟨f1, f2, f3, _⟩ := setIsConstant_fields p b
    rw [f1, f2, f3]
    exact ih

/-- Witness for the amended C10 at a concrete reachable state. -/
theorem C10_flagged_value_defined_witness :
    Reachable sFirst
    ∧ ((sFirst.hasClone = true → sFirst.value.isSome = true)
      ∧ (sFirst.hasEquals = true → sFirst.value.isSome = true)) :=
  ⟨Reachable.ctor 0 (some aNoClone) 10,
    C10_flagged_value_defined sFirst (Reachable.ctor 0 (some aNoClone) 10)⟩
